import Mathlib

/-!
Verification development for a small single-pass source-to-source compiler
(lexer → recursive-descent parser → tree-walking code generator).

The definitions below are a shallow embedding of the TypeScript sources
`src/lexer.ts`, the parser, the compiler driver, and `src/codegen.ts`.
TypeScript arrays become `List`, the mutable token cursor becomes explicit
state passing of a `TokenList` value, thrown exceptions become
`Except String`, and `undefined` results of out-of-bounds array reads
become `Option`.  Loops that are not structurally recursive carry an
explicit fuel parameter; running out of fuel is an error, so any result
of the form `.ok _` reflects a genuine terminating run of the source code.
-/

namespace Cog

/-- The token discriminants of `lexer.ts` (`enum TokenType`).

The constructor `Match` is not a member of the enum in `lexer.ts`; it is
included here because the parser's statement dispatch references
`TokenType.Match` (which is `undefined` in the TypeScript sources, so its
`case` can never fire).  The lexer below never produces it, faithfully to
the source keyword table, which has no entry for `match`. -/
inductive TokenType where
  | Func
  | Identifier
  | LBrace
  | RBrace
  | LParen
  | RParen
  | LBracket
  | RBracket
  | String
  | Number
  | Comma
  | Colon
  | Assign
  | Plus
  | Minus
  | Asterisk
  | ForwardSlash
  | Range
  | Equal
  | NotEqual
  | LessThan
  | LessThanEqual
  | GreaterThan
  | GreaterThanEqual
  | TypeTok
  | Return
  | Let
  | True
  | False
  | And
  | Or
  | If
  | ElseIf
  | Else
  | For
  | It
  | In
  | Break
  | Skip
  | Defer
  | EOF
  | Match
deriving DecidableEq, Repr

/-- `interface Token { type: TokenType; value?: string }`. -/
structure Token where
  type : TokenType
  value : Option String
deriving DecidableEq, Repr

/-- `class TokenList`: the token sequence plus the mutable cursor.
The cursor is initialized to `-1` by the constructor, hence an `Int`. -/
structure TokenList where
  tokens : List Token
  cursor : Int
deriving DecidableEq, Repr

/-- `TokenList.pop`:
```
if (this.cursor >= this.tokens.length) { this.cursor = this.tokens.length - 1; }
return this.tokens[++this.cursor];
```
Returns the read token (`none` models the `undefined` produced by an
out-of-bounds read) together with the updated cursor state. -/
def TokenList.pop (tl : TokenList) : Option Token × TokenList :=
  let c : Int := if tl.cursor ≥ (tl.tokens.length : Int) then (tl.tokens.length : Int) - 1 else tl.cursor
  let c2 : Int := c + 1
  (tl.tokens[c2.toNat]?, { tl with cursor := c2 })

/-- `TokenList.peek(pos = 1)`:
```
if (this.cursor >= this.tokens.length) { this.cursor = this.tokens.length - 2; }
return this.tokens[this.cursor + pos];
```
The clamp mutates the cursor, so the updated state is returned as well. -/
def TokenList.peek (tl : TokenList) (pos : Int) : Option Token × TokenList :=
  let c : Int := if tl.cursor ≥ (tl.tokens.length : Int) then (tl.tokens.length : Int) - 2 else tl.cursor
  ((tl.tokens[(c + pos).toNat]?), { tl with cursor := c })

/-- `tokenToString` of `lexer.ts`. -/
def tokenToString : TokenType → String
  | .Func => "func"
  | .Identifier => "identifier"
  | .LBrace => "lbrace"
  | .RBrace => "rbrace"
  | .LParen => "lparen"
  | .RParen => "rparen"
  | .LBracket => "lbracket"
  | .RBracket => "rbracket"
  | .String => "string"
  | .Number => "number"
  | .Comma => "comma"
  | .Colon => "colon"
  | .Assign => "assign"
  | .Plus => "plus"
  | .Minus => "minus"
  | .Asterisk => "asterisk"
  | .ForwardSlash => "forward_slash"
  | .Range => "range"
  | .Equal => "equal"
  | .NotEqual => "not_equal"
  | .LessThan => "less_than"
  | .LessThanEqual => "less_than_or_equal"
  | .GreaterThan => "greater_than"
  | .GreaterThanEqual => "greater_than_or_equal"
  | .TypeTok => "type"
  | .Return => "return"
  | .Let => "let"
  | .True => "true"
  | .False => "false"
  | .And => "and"
  | .Or => "or"
  | .EOF => "eof"
  | .If => "if"
  | .ElseIf => "else if"
  | .Else => "else"
  | .For => "for"
  | .It => "it"
  | .In => "in"
  | .Break => "break;"
  | .Skip => "skip"
  | .Defer => "defer"
  | _ => "unknown"

/-- `isWhitespace` of `lexer.ts`. -/
def isWhitespace (ch : Char) : Bool :=
  ch = ' ' ∨ ch = '\n' ∨ ch = '\r' ∨ ch = '\t'

/-- `isCharacter` of `lexer.ts` (identifier-class characters). -/
def isCharacter (ch : Char) : Bool :=
  ('a' ≤ ch ∧ ch ≤ 'z') ∨ ('A' ≤ ch ∧ ch ≤ 'Z') ∨ ('0' ≤ ch ∧ ch ≤ '9') ∨ ch = '_'

/-- `isDigit` of `lexer.ts`. -/
def isDigit (ch : Char) : Bool :=
  '0' ≤ ch ∧ ch ≤ '9'

/-- `skipWhitespace` of `lexer.ts`: first index `≥ i` holding a
non-whitespace character (or the length).  Fueled; the fuel is in
practice the string length, which bounds the loop. -/
def skipWhitespace (fuel : Nat) (chars : List Char) (i : Nat) : Nat :=
  match fuel with
  | 0 => i
  | fuel + 1 =>
    if i < chars.length ∧ isWhitespace chars[i]! then skipWhitespace fuel chars (i + 1) else i

/-- End index of the maximal run starting at `i` whose characters satisfy
`p`; models the `while (i < chars.length && p(chars[i])) ++i;` scanning
loops of `lex` (digits, identifier characters, string bodies, comments). -/
def scanEnd (fuel : Nat) (p : Char → Bool) (chars : List Char) (i : Nat) : Nat :=
  match fuel with
  | 0 => i
  | fuel + 1 =>
    if i < chars.length ∧ p chars[i]! then scanEnd fuel p chars (i + 1) else i

/-- `chars.slice(start, stop).join('')`. -/
def sliceStr (chars : List Char) (start stop : Nat) : String :=
  String.mk ((chars.drop start).take (stop - start))

/-- The keyword classification of an identifier-class run in `lex`
(the if/else chain on `value`).  Note there is no case for `match`. -/
def classifyWord (value : String) : Token :=
  if value = "func" then ⟨.Func, none⟩
  else if value = "string" then ⟨.TypeTok, some value⟩
  else if value = "i32" then ⟨.TypeTok, some value⟩
  else if value = "bool" then ⟨.TypeTok, some value⟩
  else if value = "void" then ⟨.TypeTok, some value⟩
  else if value = "return" then ⟨.Return, none⟩
  else if value = "let" then ⟨.Let, none⟩
  else if value = "true" then ⟨.True, none⟩
  else if value = "false" then ⟨.False, none⟩
  else if value = "and" then ⟨.And, none⟩
  else if value = "or" then ⟨.Or, none⟩
  else if value = "if" then ⟨.If, none⟩
  else if value = "elif" then ⟨.ElseIf, none⟩
  else if value = "else" then ⟨.Else, none⟩
  else if value = "for" then ⟨.For, none⟩
  else if value = "it" then ⟨.It, none⟩
  else if value = "in" then ⟨.In, none⟩
  else if value = "break" then ⟨.Break, none⟩
  else if value = "skip" then ⟨.Skip, none⟩
  else if value = "defer" then ⟨.Defer, none⟩
  else ⟨.Identifier, some value⟩

/-- One iteration of the scanning `for` loop of `lex`, continuing at the
index the loop increment produces.  Each branch appends the emitted token
(if any) and recurses at the TypeScript loop's next index; the source's
`--i` adjustments before the loop's `++i` are folded into that index. -/
def lexLoop (fuel : Nat) (chars : List Char) (i : Nat) (acc : List Token) : List Token :=
  match fuel with
  | 0 => acc
  | fuel + 1 =>
    if i < chars.length then
      let j := skipWhitespace (chars.length + 1) chars i
      if j < chars.length then
        let ch := chars[j]!
        if ch = '(' then lexLoop fuel chars (j + 1) (acc ++ [⟨.LParen, none⟩])
        else if ch = ')' then lexLoop fuel chars (j + 1) (acc ++ [⟨.RParen, none⟩])
        else if ch = '{' then lexLoop fuel chars (j + 1) (acc ++ [⟨.LBrace, none⟩])
        else if ch = '}' then lexLoop fuel chars (j + 1) (acc ++ [⟨.RBrace, none⟩])
        else if ch = '[' then lexLoop fuel chars (j + 1) (acc ++ [⟨.LBracket, none⟩])
        else if ch = ']' then lexLoop fuel chars (j + 1) (acc ++ [⟨.RBracket, none⟩])
        else if isDigit ch then
          -- number: scan the digit run, emit, resume after it
          let k := scanEnd (chars.length + 1) isDigit chars j
          lexLoop fuel chars k (acc ++ [⟨.Number, some (sliceStr chars j k)⟩])
        else if isCharacter ch then
          -- identifier or keyword
          let k := scanEnd (chars.length + 1) isCharacter chars j
          lexLoop fuel chars k (acc ++ [classifyWord (sliceStr chars j k)])
        else if ch = '\'' then
          -- string literal: skip the quote, scan to the closing quote
          let k := scanEnd (chars.length + 1) (fun c => !(c = '\'')) chars (j + 1)
          lexLoop fuel chars (k + 1) (acc ++ [⟨.String, some (sliceStr chars (j + 1) k)⟩])
        else if ch = ',' then lexLoop fuel chars (j + 1) (acc ++ [⟨.Comma, none⟩])
        else if ch = ':' then lexLoop fuel chars (j + 1) (acc ++ [⟨.Colon, none⟩])
        else if ch = '=' then
          if chars[j + 1]? = some '=' then lexLoop fuel chars (j + 2) (acc ++ [⟨.Equal, none⟩])
          else lexLoop fuel chars (j + 1) (acc ++ [⟨.Assign, none⟩])
        else if ch = '!' then
          if chars[j + 1]? = some '=' then lexLoop fuel chars (j + 2) (acc ++ [⟨.NotEqual, none⟩])
          else lexLoop fuel chars (j + 1) acc
        else if ch = '<' then
          if chars[j + 1]? = some '=' then lexLoop fuel chars (j + 2) (acc ++ [⟨.LessThanEqual, none⟩])
          else lexLoop fuel chars (j + 1) (acc ++ [⟨.LessThan, none⟩])
        else if ch = '>' then
          if chars[j + 1]? = some '=' then lexLoop fuel chars (j + 2) (acc ++ [⟨.GreaterThanEqual, none⟩])
          else lexLoop fuel chars (j + 1) (acc ++ [⟨.GreaterThan, none⟩])
        else if ch = '+' then lexLoop fuel chars (j + 1) (acc ++ [⟨.Plus, none⟩])
        else if ch = '-' then lexLoop fuel chars (j + 1) (acc ++ [⟨.Minus, none⟩])
        else if ch = '*' then lexLoop fuel chars (j + 1) (acc ++ [⟨.Asterisk, none⟩])
        else if ch = '/' then lexLoop fuel chars (j + 1) (acc ++ [⟨.ForwardSlash, none⟩])
        else if ch = '.' then
          if chars[j + 1]? = some '.' then lexLoop fuel chars (j + 2) (acc ++ [⟨.Range, none⟩])
          else lexLoop fuel chars (j + 1) acc
        else if ch = '#' then
          -- comment: drop everything through end of line
          let k := scanEnd (chars.length + 1) (fun c => !(c = '\n')) chars j
          lexLoop fuel chars (k + 1) acc
        else lexLoop fuel chars (j + 1) acc
      else
        -- whitespace ran to the end of the input: the dispatch sees only
        -- out-of-range reads and emits nothing; the loop increments past j
        lexLoop fuel chars (j + 1) acc
    else acc

/-- `lex` of `lexer.ts`: scan the whole text, then append the single
end-of-stream token and wrap the result in a fresh cursor. -/
def lex (src : String) : TokenList :=
  let chars := src.toList
  let result := lexLoop (chars.length + 1) chars 0 []
  { tokens := result ++ [⟨.EOF, none⟩], cursor := -1 }

/-! ## AST (`parser.ts` data model) -/

/-- `enum DataType`. -/
inductive DataType where
  | Void
  | String
  | I32
  | Bool
deriving DecidableEq, Repr

/-- `enum Operator`. -/
inductive Operator where
  | Add
  | Subtract
  | Multiply
  | Divide
  | Equal
  | NotEqual
  | LessThan
  | LessThanOrEqual
  | GreaterThan
  | GreaterThanOrEqual
  | And
  | Or
  | Range
deriving DecidableEq, Repr

/-! The parser's tagged records (`Expression`/`Statement` with a type tag
and an untyped payload) become closed sums: one constructor per tag value,
carrying the payload that tag stores in the source. -/

mutual

/-- `Expression`: tags `function-call`, `string`, `i32`, `bool`, `array`,
`variable`, `operator`, `binary-operation`. -/
inductive Expression where
  | functionCall (name : String) (args : List Expression)
  | str (value : String)
  | i32 (value : String)
  | bool (value : String)
  | array (ty : DataType) (items : List Expression)
  | var (name : String)
  | op (value : Option Operator)
  | binaryOperation (operator : Operator) (left right : Expression)

/-- `Statement`: tags `expression`, `return`, `variable-decl`,
`if-statement`, `match-statement`, `for-statement`, `break`, `skip`,
`defer`. -/
inductive Statement where
  | expression (e : Expression)
  | ret (e : Expression)
  | variableDecl (d : VariableDecl)
  | ifStatement (s : IfStatement)
  | matchStatement (s : MatchStatement)
  | forStatement (s : ForStatement)
  | breakStmt
  | skipStmt
  | deferStmt (e : Expression)

/-- `interface VariableDecl`. -/
inductive VariableDecl where
  | mk (name : String) (ty : DataType) (isArray : Bool) (value : Expression)

/-- `interface Block`. -/
inductive Block where
  | mk (statements : List Statement) (vars : List VariableDecl)

/-- A `{ condition, block }` pair of `IfStatement`. -/
inductive IfBranch where
  | mk (condition : Expression) (block : Block)

/-- `interface IfStatement`. -/
inductive IfStatement where
  | mk (ifBranch : IfBranch) (elseif : List IfBranch) (elseBlock : Option Block)

/-- `interface MatchCase`. -/
inductive MatchCase where
  | mk (pattern : Expression) (block : Block)

/-- `interface MatchStatement`. -/
inductive MatchStatement where
  | mk (pattern : Expression) (cases : List MatchCase) (elseBlock : Option Block)

/-- `interface ForStatement`. -/
inductive ForStatement where
  | mk (item : Option String) (expression : Option Expression) (block : Block)

end

def Block.statements : Block → List Statement
  | .mk s _ => s

def Block.variables : Block → List VariableDecl
  | .mk _ v => v

def ForStatement.item : ForStatement → Option String
  | .mk i _ _ => i

def ForStatement.expression : ForStatement → Option Expression
  | .mk _ e _ => e

def ForStatement.block : ForStatement → Block
  | .mk _ _ b => b

/-- `interface Arr`. -/
structure Arr where
  type : DataType
  items : List Expression

/-- `interface Parameter`. -/
structure Parameter where
  name : String
  type : DataType

/-- `interface Func`. -/
structure Func where
  name : String
  params : List Parameter
  block : Block
  returns : DataType

/-- `interface ParsedFile`. -/
structure ParsedFile where
  funcs : List Func

/-- `OPERATOR_PRECEDENCE` of `parser.ts`. -/
def OPERATOR_PRECEDENCE : Operator → Nat
  | .Add => 100
  | .Subtract => 100
  | .Multiply => 120
  | .Divide => 120
  | .Range => 70
  | .Equal => 50
  | .NotEqual => 50
  | .LessThan => 50
  | .LessThanOrEqual => 50
  | .GreaterThan => 50
  | .GreaterThanOrEqual => 50
  | .And => 25
  | .Or => 25

/-! ## Parser (`parser.ts`)

Every parsing function threads the `TokenList` state and returns in
`Except String`; thrown `Error`s become `.error` with the source's
message.  Reading `.type` of an `undefined` token (an out-of-bounds read)
would throw a `TypeError` in the source; `popT`/`peekT` model that.  Calls
of `pop()` whose result the source discards (so `undefined` is never
dereferenced) use `TokenList.pop` directly and keep only the state. -/

/-- Error used when a loop's fuel is exhausted.  Every fuel bound used in
the theorems below is large enough that this never fires on their inputs;
an `.ok` result always reflects a real terminating run. -/
def outOfFuel : String := "out of fuel"

/-- A `pop()` whose result has `.type` read immediately. -/
def popT (tl : TokenList) : Except String (Token × TokenList) :=
  match tl.pop with
  | (some t, tl2) => .ok (t, tl2)
  | (none, _) => .error "TypeError: cannot read type of undefined"

/-- A `peek(pos)` whose result has `.type` read immediately. -/
def peekT (tl : TokenList) (pos : Int) : Except String (Token × TokenList) :=
  match tl.peek pos with
  | (some t, tl2) => .ok (t, tl2)
  | (none, _) => .error "TypeError: cannot read type of undefined"

/-- The inner reduction loop of `parseExpression`:
`while (operatorStack.length > 0 && OPERATOR_PRECEDENCE[top] >= currentPrecedence)`
pop an operator and two operands and push the combined binary operation.
The head of each list is the top of the corresponding stack.  The source
would build nodes with `undefined` children if an operand stack ever ran
dry; the parser maintains `|operands| = |operators| + 1`, so that case is
unreachable and is modelled as an error. -/
def reduceWhile (ops : List Operator) (operands : List Expression) (currentPrecedence : Nat) :
    Except String (List Operator × List Expression) :=
  match ops with
  | [] => .ok ([], operands)
  | top :: rest =>
    if OPERATOR_PRECEDENCE top ≥ currentPrecedence then
      match operands with
      | right :: left :: restE =>
        reduceWhile rest (Expression.binaryOperation top left right :: restE) currentPrecedence
      | _ => .error "stack underflow"
    else .ok (ops, operands)

/-- The drain loop after `parseExpression`'s main loop:
`while (operatorStack.length > 0)` reduce once. -/
def drainOps (ops : List Operator) (operands : List Expression) :
    Except String (List Expression) :=
  match ops with
  | [] => .ok operands
  | top :: rest =>
    match operands with
    | right :: left :: restE =>
      drainOps rest (Expression.binaryOperation top left right :: restE)
    | _ => .error "stack underflow"

/-- `parseOperator`: peeks one token; on an operator token it pops it
(the popped value is discarded by the source) and yields the operator,
otherwise yields `none` (the `data: null` result). -/
def parseOperatorT (tl : TokenList) : Except String (Option Operator × TokenList) := do
  let (t, tl) ← peekT tl 1
  let data : Option Operator :=
    match t.type with
    | .Plus => some .Add
    | .Minus => some .Subtract
    | .Asterisk => some .Multiply
    | .ForwardSlash => some .Divide
    | .LessThan => some .LessThan
    | .GreaterThan => some .GreaterThan
    | .Equal => some .Equal
    | .NotEqual => some .NotEqual
    | .LessThanEqual => some .LessThanOrEqual
    | .GreaterThanEqual => some .GreaterThanOrEqual
    | .And => some .And
    | .Or => some .Or
    | .Range => some .Range
    | _ => none
  match data with
  | some o => pure (some o, (tl.pop).2)
  | none => pure (none, tl)

/-- `parseType`. -/
def parseType (tl : TokenList) : Except String (DataType × TokenList) := do
  let (t, tl) ← popT tl
  if t.type = .Colon then
    let (t2, tl) ← popT tl
    if t2.type = .TypeTok then
      match t2.value.getD "" with
      | "string" => pure (.String, tl)
      | "i32" => pure (.I32, tl)
      | "void" => pure (.Void, tl)
      | _ => pure (.Void, tl)
    else .error ("Expected data type, got '" ++ tokenToString t2.type ++ "'")
  else .error ("Expected ':', got '" ++ tokenToString t.type ++ "'")

/-- `parseFunctionParameter`. -/
def parseFunctionParameter (tl : TokenList) : Except String (Parameter × TokenList) := do
  let (t, tl) ← popT tl
  if t.type = .Identifier then
    let (ty, tl) ← parseType tl
    pure (⟨t.value.getD "", ty⟩, tl)
  else .error ("Expected parameter name, got '" ++ tokenToString t.type ++ "'")

mutual

/-- `parse`: pops tokens until the end-of-stream token, dispatching on
`func`; any other top-level token falls through the `switch` silently. -/
def parse (fuel : Nat) (tl : TokenList) : Except String ParsedFile :=
  match fuel with
  | 0 => .error outOfFuel
  | fuel + 1 => do
    let (t, tl) ← popT tl
    parseLoop fuel [] t tl

/-- The `while (token.type !== TokenType.EOF)` loop of `parse`. -/
def parseLoop (fuel : Nat) (funcs : List Func) (t : Token) (tl : TokenList) :
    Except String ParsedFile :=
  match fuel with
  | 0 => .error outOfFuel
  | fuel + 1 =>
    if t.type = .EOF then .ok ⟨funcs⟩
    else do
      let (funcs, tl) ←
        if t.type = .Func then do
          let (f, tl) ← parseFunction fuel tl
          pure (funcs ++ [f], tl)
        else pure (funcs, tl)
      let (t2, tl) ← popT tl
      parseLoop fuel funcs t2 tl

/-- `parseFunction`. -/
def parseFunction (fuel : Nat) (tl : TokenList) : Except String (Func × TokenList) :=
  match fuel with
  | 0 => .error outOfFuel
  | fuel + 1 => do
    let (t, tl) ← popT tl
    if t.type = .EOF then .error "Unexpected end of file"
    else if t.type = .Identifier then do
      let name := t.value.getD ""
      let (t2, tl) ← popT tl
      if t2.type = .LParen then do
        let (t3, tl) ← peekT tl 1
        let (t4, tl) ← if t3.type = .RParen then popT tl else pure (t3, tl)
        let (params, t5, tl) ← parseFuncParamsLoop fuel [] t4 tl
        if t5.type = .RParen then do
          let (returns, tl) ← parseType tl
          let (block, tl) ← parseBlock fuel tl
          pure (⟨name, params, block, returns⟩, tl)
        else .error ("Expected ')', got '" ++ tokenToString t5.type ++ "'")
      else .error ("Expected '(', got '" ++ tokenToString t2.type ++ "'")
    else .error ("Expected function name, got '" ++ tokenToString t.type ++ "'")

/-- The parameter-list loop of `parseFunction`; also returns the token
the loop left in `token`, checked against `)` by the caller. -/
def parseFuncParamsLoop (fuel : Nat) (params : List Parameter) (t : Token) (tl : TokenList) :
    Except String (List Parameter × Token × TokenList) :=
  match fuel with
  | 0 => .error outOfFuel
  | fuel + 1 =>
    if t.type = .EOF ∨ t.type = .RParen then .ok (params, t, tl)
    else do
      let (p, tl) ← parseFunctionParameter tl
      let (t2, tl) ← popT tl
      if t2.type = .Comma then do
        let (t3, tl) ← peekT tl 1
        parseFuncParamsLoop fuel (params ++ [p]) t3 tl
      else .ok (params ++ [p], t2, tl)

/-- `parseBlock`. -/
def parseBlock (fuel : Nat) (tl : TokenList) : Except String (Block × TokenList) :=
  match fuel with
  | 0 => .error outOfFuel
  | fuel + 1 => do
    let (t, tl) ← popT tl
    if t.type = .LBrace then do
      let (t1, tl) ← peekT tl 1
      let (stmts, vars, t2, tl) ← parseBlockLoop fuel [] [] t1 tl
      if t2.type = .RBrace then
        pure (Block.mk stmts vars, (tl.pop).2)
      else .error ("Expected '\x7d', got '" ++ tokenToString t2.type ++ "'")
    else .error ("Expected '\x7b', got '" ++ tokenToString t.type ++ "'")

/-- The statement loop of `parseBlock`; variable declarations are also
collected into the block's `variables` list. -/
def parseBlockLoop (fuel : Nat) (stmts : List Statement) (vars : List VariableDecl)
    (t : Token) (tl : TokenList) :
    Except String (List Statement × List VariableDecl × Token × TokenList) :=
  match fuel with
  | 0 => .error outOfFuel
  | fuel + 1 =>
    if t.type = .EOF ∨ t.type = .RBrace then .ok (stmts, vars, t, tl)
    else do
      let (stmnt, tl) ← parseStatement fuel tl
      let vars :=
        match stmnt with
        | .variableDecl d => vars ++ [d]
        | _ => vars
      let (t2, tl) ← peekT tl 1
      parseBlockLoop fuel (stmts ++ [stmnt]) vars t2 tl

/-- `parseStatement`: peeks the leading token and dispatches. -/
def parseStatement (fuel : Nat) (tl : TokenList) : Except String (Statement × TokenList) :=
  match fuel with
  | 0 => .error outOfFuel
  | fuel + 1 => do
    let (t, tl) ← peekT tl 1
    parseStatementLoop fuel t tl

/-- The `while (token.type !== TokenType.EOF)` loop of `parseStatement`:
a token matching no dispatch case is popped and the loop continues with
the next token; reaching end-of-stream throws `Incomplete statement`.
The source's `case TokenType.Match` compares against an enum member the
lexer does not define (`undefined` at runtime), but the embedded
`TokenType` carries the constructor, so the dispatch is written out. -/
def parseStatementLoop (fuel : Nat) (t : Token) (tl : TokenList) :
    Except String (Statement × TokenList) :=
  match fuel with
  | 0 => .error outOfFuel
  | fuel + 1 =>
    if t.type = .EOF then .error "Incomplete statement"
    else
      match t.type with
      | .Identifier => do
        let (e, tl) ← parseExpression fuel tl
        pure (.expression e, tl)
      | .Return => do
        let tl := (tl.pop).2
        let (e, tl) ← parseExpression fuel tl
        pure (.ret e, tl)
      | .Let => do
        let (d, tl) ← parseVariableDecl fuel tl
        pure (.variableDecl d, tl)
      | .If => do
        let (s, tl) ← parseIfStatement fuel tl
        pure (.ifStatement s, tl)
      | .Match => do
        let (s, tl) ← parseMatchStatement fuel tl
        pure (.matchStatement s, tl)
      | .For => do
        let (s, tl) ← parseForStatement fuel tl
        pure (.forStatement s, tl)
      | .Break => pure (.breakStmt, (tl.pop).2)
      | .Skip => pure (.skipStmt, (tl.pop).2)
      | .Defer => do
        let tl := (tl.pop).2
        let (e, tl) ← parseExpression fuel tl
        pure (.deferStmt e, tl)
      | _ => do
        let (t2, tl) ← popT tl
        parseStatementLoop fuel t2 tl

/-- `parseIfStatement`. -/
def parseIfStatement (fuel : Nat) (tl : TokenList) : Except String (IfStatement × TokenList) :=
  match fuel with
  | 0 => .error outOfFuel
  | fuel + 1 => do
    let (t, tl) ← popT tl
    if t.type = .If then do
      let (cond, tl) ← parseExpression fuel tl
      let (blk, tl) ← parseBlock fuel tl
      let (t2, tl) ← peekT tl 1
      -- source: `if (token.type === TokenType.ElseIf) { result.elseif = []; }`
      -- resets the already-empty list; a no-op
      let (elifs, tl) ← parseElseIfLoop fuel [] t2 tl
      let (t3, tl) ← peekT tl 1
      if t3.type = .Else then do
        let tl := (tl.pop).2
        let (eb, tl) ← parseBlock fuel tl
        pure (⟨⟨cond, blk⟩, elifs, some eb⟩, tl)
      else pure (⟨⟨cond, blk⟩, elifs, none⟩, tl)
    else .error ("Expected 'if', got '" ++ tokenToString t.type ++ "'")

/-- The `while (token.type === TokenType.ElseIf)` loop of
`parseIfStatement`. -/
def parseElseIfLoop (fuel : Nat) (acc : List IfBranch) (t : Token) (tl : TokenList) :
    Except String (List IfBranch × TokenList) :=
  match fuel with
  | 0 => .error outOfFuel
  | fuel + 1 =>
    if t.type = .ElseIf then do
      let tl := (tl.pop).2
      let (c, tl) ← parseExpression fuel tl
      let (b, tl) ← parseBlock fuel tl
      let (t2, tl) ← peekT tl 1
      parseElseIfLoop fuel (acc ++ [⟨c, b⟩]) t2 tl
    else .ok (acc, tl)

/-- `parseMatchStatement`.  Unreachable from source text: the lexer never
produces a `Match` token (see `classifyWord`), so `parseStatementLoop`
never dispatches here; embedded for completeness. -/
def parseMatchStatement (fuel : Nat) (tl : TokenList) :
    Except String (MatchStatement × TokenList) :=
  match fuel with
  | 0 => .error outOfFuel
  | fuel + 1 => do
    let (t, tl) ← popT tl
    if t.type = .Match then do
      let (pat, tl) ← parseExpression fuel tl
      let (t2, tl) ← popT tl
      if t2.type = .LBrace then do
        -- the loop's entry token is the `{` just popped
        let (cases, tl) ← parseMatchCasesLoop fuel [] t2 tl
        let (t3, tl) ← popT tl
        if t3.type = .Else then do
          let (eb, tl) ← parseBlock fuel tl
          let (t4, tl) ← popT tl
          if t4.type = .RBrace then pure (⟨pat, cases, some eb⟩, tl)
          else .error ("Expected '\x7d', got '" ++ tokenToString t4.type ++ "'")
        else do
          let (t4, tl) ← popT tl
          if t4.type = .RBrace then pure (⟨pat, cases, none⟩, tl)
          else .error ("Expected '\x7d', got '" ++ tokenToString t4.type ++ "'")
      else .error ("Expected '\x7b', got '" ++ tokenToString t2.type ++ "'")
    else .error ("Expected 'match', got '" ++ tokenToString t.type ++ "'")

/-- The case loop of `parseMatchStatement`. -/
def parseMatchCasesLoop (fuel : Nat) (acc : List MatchCase) (t : Token) (tl : TokenList) :
    Except String (List MatchCase × TokenList) :=
  match fuel with
  | 0 => .error outOfFuel
  | fuel + 1 =>
    if t.type = .EOF ∨ t.type = .RBrace ∨ t.type = .Else then .ok (acc, tl)
    else do
      let (c, tl) ← parseMatchCase fuel tl
      let (t2, tl) ← peekT tl 1
      parseMatchCasesLoop fuel (acc ++ [c]) t2 tl

/-- `parseMatchCase`. -/
def parseMatchCase (fuel : Nat) (tl : TokenList) : Except String (MatchCase × TokenList) :=
  match fuel with
  | 0 => .error outOfFuel
  | fuel + 1 => do
    let (pat, tl) ← parseExpression fuel tl
    let (blk, tl) ← parseBlock fuel tl
    pure (⟨pat, blk⟩, tl)

/-- `parseForStatement`.  When the two-token lookahead sees `in`, only the
bound identifier is popped: the `in` token itself is left in the stream
for the following `parseExpression` call. -/
def parseForStatement (fuel : Nat) (tl : TokenList) :
    Except String (ForStatement × TokenList) :=
  match fuel with
  | 0 => .error outOfFuel
  | fuel + 1 => do
    let (t, tl) ← popT tl
    if t.type = .For then do
      let (t2, tl) ← peekT tl 1
      if t2.type = .LBrace then do
        let (blk, tl) ← parseBlock fuel tl
        pure (⟨none, none, blk⟩, tl)
      else do
        let (item, tl) ←
          if t2.type = .Identifier then do
            let (t3, tl) ← peekT tl 2
            if t3.type = .In then
              pure (some (t2.value.getD ""), (tl.pop).2)
            else pure ((none : Option String), tl)
          else pure ((none : Option String), tl)
        let (e, tl) ← parseExpression fuel tl
        let (blk, tl) ← parseBlock fuel tl
        pure (⟨item, some e, blk⟩, tl)
    else .error ("Expected 'for', got '" ++ tokenToString t.type ++ "'")

/-- `parseFunctionCall`; yields the call's name and arguments. -/
def parseFunctionCall (fuel : Nat) (tl : TokenList) :
    Except String (String × List Expression × TokenList) :=
  match fuel with
  | 0 => .error outOfFuel
  | fuel + 1 => do
    let (t, tl) ← popT tl
    if t.type = .Identifier then do
      let name := t.value.getD ""
      let (t2, tl) ← popT tl
      if t2.type = .LParen then do
        let (t3, tl) ← peekT tl 1
        let (t4, tl) ← if t3.type = .RParen then popT tl else pure (t3, tl)
        let (args, t5, tl) ← parseCallArgsLoop fuel [] t4 tl
        if t5.type = .RParen then pure (name, args, tl)
        else .error ("Expected ')', got '" ++ tokenToString t5.type ++ "'")
      -- source: this message has no quotes around the actual token kind
      else .error ("Expected '(', got " ++ tokenToString t2.type)
    else .error ("Expected function name, got '" ++ tokenToString t.type ++ "'")

/-- The argument loop of `parseFunctionCall`; also returns the token the
loop left in `token`, checked against `)` by the caller. -/
def parseCallArgsLoop (fuel : Nat) (args : List Expression) (t : Token) (tl : TokenList) :
    Except String (List Expression × Token × TokenList) :=
  match fuel with
  | 0 => .error outOfFuel
  | fuel + 1 =>
    if t.type = .EOF ∨ t.type = .RParen then .ok (args, t, tl)
    else do
      let (e, tl) ← parseExpression fuel tl
      let (t2, tl) ← popT tl
      parseCallArgsLoop fuel (args ++ [e]) t2 tl

/-- `parseVariableDecl`. -/
def parseVariableDecl (fuel : Nat) (tl : TokenList) :
    Except String (VariableDecl × TokenList) :=
  match fuel with
  | 0 => .error outOfFuel
  | fuel + 1 => do
    let (t, tl) ← popT tl
    if t.type = .Let then do
      let (t2, tl) ← popT tl
      if t2.type = .Identifier then do
        let name := t2.value.getD ""
        let (ty, tl) ← parseType tl
        let (t3, tl) ← peekT tl 1
        let (isArray, tl) ←
          if t3.type = .LBracket then do
            let tl := (tl.pop).2
            let (t4, tl) ← popT tl
            if t4.type = .RBracket then pure (true, tl)
            -- source: this message has no quotes around the actual token kind
            else .error ("Expected '[]', got " ++ tokenToString t4.type)
          else pure (false, tl)
        let (t5, tl) ← popT tl
        if t5.type = .Assign then do
          let (value, tl) ← parseExpression fuel tl
          pure (.mk name ty isArray value, tl)
        else .error ("Expected '=', got '" ++ tokenToString t5.type ++ "'")
      else .error ("Expected variable name, got '" ++ tokenToString t2.type ++ "'")
    else .error ("Expected 'let', got '" ++ tokenToString t.type ++ "'")

/-- `parseExpression`: the shunting-yard loop.  The source peeks one token
before the loop; if it is the end-of-stream token the loop never runs and
the single operand is returned (the drain over an empty operator stack). -/
def parseExpression (fuel : Nat) (tl : TokenList) :
    Except String (Expression × TokenList) :=
  match fuel with
  | 0 => .error outOfFuel
  | fuel + 1 => do
    let (operand, tl) ← parseOperand fuel tl
    let (t0, tl) ← peekT tl 1
    if t0.type = .EOF then pure (operand, tl)
    else parseExpressionLoop fuel [] [operand] tl

/-- The main loop of `parseExpression`: parse an operator (`null` breaks
the loop into the drain), reduce while the stack's top has precedence
`≥` the new operator's, push, parse the next operand, repeat.  The drain
returns `operandsStack[0]`, the bottom of the stack — the last element of
the head-is-top list. -/
def parseExpressionLoop (fuel : Nat) (ops : List Operator) (operands : List Expression)
    (tl : TokenList) : Except String (Expression × TokenList) :=
  match fuel with
  | 0 => .error outOfFuel
  | fuel + 1 => do
    let (opOpt, tl) ← parseOperatorT tl
    match opOpt with
    | none => do
      let operands ← drainOps ops operands
      match operands.getLast? with
      | some e => pure (e, tl)
      | none => .error "stack underflow"
    | some o => do
      let (ops, operands) ← reduceWhile ops operands (OPERATOR_PRECEDENCE o)
      let (operand, tl) ← parseOperand fuel tl
      parseExpressionLoop fuel (o :: ops) (operand :: operands) tl

/-- `parseOperand`. -/
def parseOperand (fuel : Nat) (tl : TokenList) : Except String (Expression × TokenList) :=
  match fuel with
  | 0 => .error outOfFuel
  | fuel + 1 => do
    let (t, tl) ← peekT tl 1
    match t.type with
    | .String => pure (.str (t.value.getD ""), (tl.pop).2)
    | .Number => pure (.i32 (t.value.getD ""), (tl.pop).2)
    | .True => pure (.bool "true", (tl.pop).2)
    | .False => pure (.bool "false", (tl.pop).2)
    | .Identifier => do
      let (t2, tl) ← peekT tl 2
      if t2.type = .LParen then do
        let (name, args, tl) ← parseFunctionCall fuel tl
        pure (.functionCall name args, tl)
      else pure (.var (t.value.getD ""), (tl.pop).2)
    | .It => pure (.var "it", (tl.pop).2)
    | .LBracket => do
      let (arr, tl) ← parseArray fuel tl
      pure (.array arr.type arr.items, tl)
    | _ => .error ("Expected expression, got '" ++ tokenToString t.type ++ "'")

/-- `parseArray`. -/
def parseArray (fuel : Nat) (tl : TokenList) : Except String (Arr × TokenList) :=
  match fuel with
  | 0 => .error outOfFuel
  | fuel + 1 => do
    let (t, tl) ← popT tl
    if t.type = .LBracket then do
      let (t1, tl) ← peekT tl 1
      let (items, tl) ← parseArrayLoop fuel [] t1 tl
      pure (⟨DataType.I32, items⟩, tl)
    else .error ("Expected '[', got '" ++ tokenToString t.type ++ "'")

/-- The item loop of `parseArray`: while the current token is neither the
end-of-stream token nor `]`, parse an item, require `,` or `]` ahead, and
pop it; the loop condition then re-examines the popped token. -/
def parseArrayLoop (fuel : Nat) (items : List Expression) (t : Token) (tl : TokenList) :
    Except String (List Expression × TokenList) :=
  match fuel with
  | 0 => .error outOfFuel
  | fuel + 1 =>
    if t.type = .EOF ∨ t.type = .RBracket then .ok (items, tl)
    else do
      let (e, tl) ← parseExpression fuel tl
      let (t2, tl) ← peekT tl 1
      if t2.type = .Comma ∨ t2.type = .RBracket then do
        let (t3, tl) ← popT tl
        parseArrayLoop fuel (items ++ [e]) t3 tl
      else .error ("Expected ',', got '" ++ tokenToString t2.type ++ "'")

end

/-! ## Code generator (`codegen.ts`) -/

/-- `' '.repeat(indentLevel * 4)`. -/
def indentStr (indentLevel : Nat) : String :=
  String.mk (List.replicate (indentLevel * 4) ' ')

/-- `translateOperator`. -/
def translateOperator : Operator → String
  | .Add => "+"
  | .Subtract => "-"
  | .Multiply => "*"
  | .Divide => "/"
  | .Equal => "==="
  | .NotEqual => "!=="
  | .LessThan => "<"
  | .LessThanOrEqual => "<="
  | .GreaterThan => ">"
  | .GreaterThanOrEqual => ">="
  | .And => "&&"
  | .Or => "||"
  | .Range => ""

mutual

/-- `translateExpression`.  The `operator` tag falls through the `switch`
(an operator alone is not an expression) and yields the final `''`.  The
`function-call` case is `translateFunctionCall`, whose body is written
inline here (and repeated as the standalone `translateFunctionCall`
below, which is definitionally the same) so that the mutual recursion is
structural. -/
def translateExpression (expression : Expression) (context : ParsedFile) : String :=
  match expression with
  | .functionCall name args =>
    let argsStr := String.intercalate ", " (translateExpressionList args context)
    if name = "print" then "console.log(" ++ argsStr ++ ");"
    else if context.funcs.any (fun func => func.name = name) then
      name ++ "(" ++ argsStr ++ ")"
    else ""
  | .str s => "'" ++ s ++ "'"
  | .i32 s => s
  | .bool s => s
  | .var s => s
  | .op _ => ""
  | .binaryOperation o l r =>
    let left := translateExpression l context
    let right := translateExpression r context
    left ++ " " ++ translateOperator o ++ " " ++ right
  | .array _ items => "[" ++ String.intercalate ", " (translateExpressionList items context) ++ "]"
termination_by structural expression

/-- `items.map(e => translateExpression(e, context))`. -/
def translateExpressionList (items : List Expression) (context : ParsedFile) : List String :=
  match items with
  | [] => []
  | e :: rest => translateExpression e context :: translateExpressionList rest context
termination_by structural items

end

/-- `translateFunctionCall`: the intrinsic `print` becomes the host
console primitive; a name found in the whole-program function table
becomes a plain call (`findIndex(...) !== -1`, i.e. some declared
function has that name); anything else becomes the empty string.
`translateExpression` on a `function-call` expression is definitionally
this function applied to the call's name and arguments. -/
def translateFunctionCall (name : String) (args : List Expression) (context : ParsedFile) :
    String :=
  let argsStr := String.intercalate ", " (translateExpressionList args context)
  if name = "print" then "console.log(" ++ argsStr ++ ");"
  else if context.funcs.any (fun func => func.name = name) then
    name ++ "(" ++ argsStr ++ ")"
  else ""

/-- `translateRangeExpression`: the translated bounds of a range
binary-operation. -/
def translateRangeExpression (left right : Expression) (context : ParsedFile) :
    String × String :=
  (translateExpression left context, translateExpression right context)

/-- `translateVariableDecl`. -/
def translateVariableDecl (decl : VariableDecl) (context : ParsedFile) : String :=
  match decl with
  | .mk name _ _ value => "const " ++ name ++ " = " ++ translateExpression value context ++ ";"

/-- Models the JavaScript expression `st.item || 'it'`: `undefined` and
the empty string are falsy. -/
def jsOrDefault : Option String → String → String
  | some s, d => if s = "" then d else s
  | none, d => d

mutual

/-- `translateBlock`: statements lower line-by-line; `defer` statements
are captured as named closures at their position, and the accumulated
closure names are invoked at the end of the block's output. -/
def translateBlock (block : Block) (context : ParsedFile) (indentLevel : Nat) : List String :=
  match block with
  | .mk stmts _ =>
    let indent := indentStr indentLevel
    let (lines, defers) := translateStatements stmts context indentLevel 0
    lines ++ defers.map (fun d => indent ++ d ++ "();")
termination_by structural block

/-- The statement loop of `translateBlock`.  `deferCount` is the number
of defers already seen (`defers.length` at that point in the source);
returns the emitted lines and the defer closure names in declaration
order. -/
def translateStatements (stmts : List Statement) (context : ParsedFile)
    (indentLevel : Nat) (deferCount : Nat) : List String × List String :=
  match stmts with
  | [] => ([], [])
  | s :: rest =>
    let indent := indentStr indentLevel
    match s with
    | .expression e =>
      let (ls, ds) := translateStatements rest context indentLevel deferCount
      ((indent ++ translateExpression e context) :: ls, ds)
    | .ret e =>
      let (ls, ds) := translateStatements rest context indentLevel deferCount
      ((indent ++ "return " ++ translateExpression e context ++ ";") :: ls, ds)
    | .variableDecl d =>
      let (ls, ds) := translateStatements rest context indentLevel deferCount
      ((indent ++ translateVariableDecl d context) :: ls, ds)
    | .ifStatement s =>
      let (ls, ds) := translateStatements rest context indentLevel deferCount
      (translateIfStatement s context indentLevel :: ls, ds)
    | .matchStatement s =>
      let (ls, ds) := translateStatements rest context indentLevel deferCount
      (translateMatchStatement s context indentLevel :: ls, ds)
    | .forStatement s =>
      let (ls, ds) := translateStatements rest context indentLevel deferCount
      (translateForStatement s context indentLevel ++ ls, ds)
    | .breakStmt =>
      let (ls, ds) := translateStatements rest context indentLevel deferCount
      ((indent ++ "break;") :: ls, ds)
    | .skipStmt =>
      let (ls, ds) := translateStatements rest context indentLevel deferCount
      ((indent ++ "continue") :: ls, ds)
    | .deferStmt e =>
      let deferName := "defer_" ++ toString deferCount
      let (ls, ds) := translateStatements rest context indentLevel (deferCount + 1)
      ((indent ++ "const " ++ deferName ++ " = () => \x7b " ++
          translateExpression e context ++ "; \x7d;") :: ls,
        deferName :: ds)
termination_by structural stmts

/-- `translateIfStatement`; the chain is emitted as one string joined
with newlines, as in the source. -/
def translateIfStatement (st : IfStatement) (context : ParsedFile) (indentLevel : Nat) :
    String :=
  match st with
  | .mk (.mk cond blk) elifs elseB =>
    let indent := indentStr indentLevel
    let head := (indent ++ "if (" ++ translateExpression cond context ++ ") \x7b") ::
      translateBlock blk context (indentLevel + 1)
    let mid := head ++ translateElseifs elifs context indentLevel
    let tail :=
      match elseB with
      | some b => mid ++ [indent ++ "\x7d else \x7b"] ++ translateBlock b context (indentLevel + 1)
      | none => mid
    String.intercalate "\n" (tail ++ [indent ++ "\x7d"])
termination_by structural st

/-- The `elseif` loop of `translateIfStatement`. -/
def translateElseifs (elifs : List IfBranch) (context : ParsedFile) (indentLevel : Nat) :
    List String :=
  match elifs with
  | [] => []
  | .mk c b :: rest =>
    let indent := indentStr indentLevel
    ((indent ++ "\x7d else if (" ++ translateExpression c context ++ ") \x7b") ::
      translateBlock b context (indentLevel + 1)) ++ translateElseifs rest context indentLevel
termination_by structural elifs

/-- `translateMatchStatement`. -/
def translateMatchStatement (st : MatchStatement) (context : ParsedFile) (indentLevel : Nat) :
    String :=
  match st with
  | .mk pat cases elseB =>
    let indent := indentStr indentLevel
    let nextIndent := indentStr (indentLevel + 1)
    let nextnextIndent := indentStr (indentLevel + 2)
    let head := (indent ++ "switch (" ++ translateExpression pat context ++ ") \x7b") ::
      translateMatchCases cases context (indentLevel + 1)
    let mid :=
      match elseB with
      | some b => head ++ [nextIndent ++ "default: \x7b"] ++
          translateBlock b context (indentLevel + 2) ++
          [nextnextIndent ++ "break;", nextIndent ++ "\x7d"]
      | none => head
    String.intercalate "\n" (mid ++ [indent ++ "\x7d"])
termination_by structural st

/-- The case loop of `translateMatchStatement`. -/
def translateMatchCases (cases : List MatchCase) (context : ParsedFile) (indentLevel : Nat) :
    List String :=
  match cases with
  | [] => []
  | c :: rest => translateMatchCase c context indentLevel ++ translateMatchCases rest context indentLevel
termination_by structural cases

/-- `translateMatchCase`. -/
def translateMatchCase (c : MatchCase) (context : ParsedFile) (indentLevel : Nat) :
    List String :=
  match c with
  | .mk pat blk =>
    let indent := indentStr indentLevel
    let nextIndent := indentStr (indentLevel + 1)
    ((indent ++ "case " ++ translateExpression pat context ++ ": \x7b") ::
      translateBlock blk context (indentLevel + 1)) ++
      [nextIndent ++ "break;", indent ++ "\x7d"]
termination_by structural c

/-- `translateForStatement`.  With an iteration expression present, a
range binary-operation (`st.expression.data.operator === Operator.Range`)
becomes a counted loop with a strict `<` bound; a `variable` expression
becomes an element (`for...of`) loop; any other expression shape matches
neither branch and emits nothing.  With no expression, an infinite loop
is emitted (with literal tab indentation, as in the source). -/
def translateForStatement (st : ForStatement) (context : ParsedFile) (indentLevel : Nat) :
    List String :=
  match st with
  | .mk item exprOpt blk =>
    let indent := indentStr indentLevel
    match exprOpt with
    | some e =>
      let itemName := jsOrDefault item "it"
      match e with
      | .binaryOperation .Range l r =>
        let (startS, stopS) := translateRangeExpression l r context
        ((indent ++ "for (let " ++ itemName ++ " = " ++ startS ++ "; " ++ itemName ++ " < " ++
            stopS ++ "; " ++ itemName ++ "++) \x7b") ::
          translateBlock blk context (indentLevel + 1)) ++ [indent ++ "\x7d"]
      | .var v =>
        ((indent ++ "for (const " ++ itemName ++ " of " ++
            translateExpression (.var v) context ++ ") \x7b") ::
          translateBlock blk context (indentLevel + 1)) ++ [indent ++ "\x7d"]
      | _ => []
    | none =>
      ("\twhile (true) \x7b" :: translateBlock blk context (indentLevel + 1)) ++ ["\t\x7d"]
termination_by structural st

end

/-- `translateFunctionParams`. -/
def translateFunctionParams (params : List Parameter) : String :=
  String.intercalate ", " (params.map (fun param => param.name))

/-- `translateFunction`. -/
def translateFunction (func : Func) (context : ParsedFile) : List String :=
  (("function " ++ func.name ++ "(" ++ translateFunctionParams func.params ++ ") \x7b") ::
    translateBlock func.block context 1) ++ ["\x7d"]

/-- The function loop of `translate`: each function's lines followed by
one empty line. -/
def translateFunctionsAll (funcs : List Func) (context : ParsedFile) : List String :=
  match funcs with
  | [] => []
  | f :: rest => (translateFunction f context ++ [""]) ++ translateFunctionsAll rest context

/-- The lines of `translate`: all function definitions, then — when some
function is named `main` (`findIndex(...) !== -1`, with no check of its
parameter list) — the appended top-level invocation. -/
def translateLines (parsedFile : ParsedFile) : List String :=
  let result := translateFunctionsAll parsedFile.funcs parsedFile
  if parsedFile.funcs.any (fun func => func.name = "main") then result ++ ["main();"]
  else result

/-- `translate`: `result.join('\n')`. -/
def translate (parsedFile : ParsedFile) : String :=
  String.intercalate "\n" (translateLines parsedFile)

/-- Models the host-language counted loop emitted for range
for-statements, `for (let x = s; x < e; x++) { ... }`: the sequence of
values the loop variable takes in the body.  Fueled. -/
def jsCountedLoopVisits (fuel : Nat) (s e : Int) : List Int :=
  match fuel with
  | 0 => []
  | fuel + 1 => if s < e then s :: jsCountedLoopVisits fuel (s + 1) e else []

/-- The number of `defer` statements in a statement list. -/
def countDefers : List Statement → Nat
  | [] => 0
  | .deferStmt _ :: rest => countDefers rest + 1
  | _ :: rest => countDefers rest

/-- The branch condition `st.expression.data.operator === Operator.Range`
of `translateForStatement`: true exactly for a binary operation whose
operator is the range operator (every other payload shape makes the
`.operator` read `undefined`). -/
def isRangeOp : Expression → Bool
  | .binaryOperation .Range _ _ => true
  | _ => false

/-- The branch condition `st.expression.type === 'variable'` of
`translateForStatement`. -/
def isVariableExpr : Expression → Bool
  | .var _ => true
  | _ => false

/-! ## Theorems -/

/-- C1 counterexample: with the single-token sequence `[EOF]`, the first
`pop` returns the token and consumes the whole sequence; the next `pop`
does not return the final token as claimed — it returns no token at all
(the `undefined` of the out-of-bounds read at index `length`), as does
every further `pop` and a `peek` past the end. -/
theorem pop_after_end_not_final_token :
    ((TokenList.mk [⟨.EOF, none⟩] (-1)).pop).1 = some ⟨.EOF, none⟩ ∧
    (((TokenList.mk [⟨.EOF, none⟩] (-1)).pop).2.pop).1 ≠ some ⟨.EOF, none⟩ ∧
    (((TokenList.mk [⟨.EOF, none⟩] (-1)).pop).2.pop).1 = none ∧
    ((((TokenList.mk [⟨.EOF, none⟩] (-1)).pop).2.pop).2.pop).1 = none ∧
    (((TokenList.mk [⟨.EOF, none⟩] (-1)).pop).2.peek 1).1 = none := by
  refine ⟨rfl, ?_, rfl, rfl, rfl⟩
  decide

/-- C1 amended: once the cursor has consumed all tokens, a further
`pop` reads past the last valid index and returns no token (`undefined`),
not the final token; the cursor is clamped so that every further `pop`
keeps returning no token from the same position, and `peek` just past the
end likewise returns no token. -/
theorem pop_peek_past_end_return_no_token (toks : List Token) :
    (TokenList.mk toks ((toks.length : Int) - 1)).pop =
      (none, TokenList.mk toks (toks.length : Int)) ∧
    (TokenList.mk toks (toks.length : Int)).pop =
      (none, TokenList.mk toks (toks.length : Int)) ∧
    (TokenList.mk toks ((toks.length : Int) - 1)).peek 1 =
      (none, TokenList.mk toks ((toks.length : Int) - 1)) := by
  have hidx : (((toks.length : Int) - 1) + 1).toNat = toks.length := by omega
  refine ⟨?_, ?_, ?_⟩
  · simp only [TokenList.pop]
    rw [if_neg (by omega), Prod.mk.injEq]
    exact ⟨by rw [hidx]; exact List.getElem?_eq_none (le_refl _), by congr 1; omega⟩
  · simp only [TokenList.pop]
    rw [if_pos (by omega), Prod.mk.injEq]
    exact ⟨by rw [hidx]; exact List.getElem?_eq_none (le_refl _), by congr 1; omega⟩
  · simp only [TokenList.peek]
    rw [if_neg (by omega), Prod.mk.injEq]
    exact ⟨by rw [hidx]; exact List.getElem?_eq_none (le_refl _), rfl⟩

/-- C2 counterexample: a for-statement whose iteration expression is
present and is not a range binary-operation — here the array literal
`[42]` — does not produce an element-wise iteration loop: the generator
emits nothing for it. -/
theorem for_nonrange_array_literal_emits_nothing :
    translateForStatement
      (.mk none (some (.array .I32 [.i32 "42"])) (.mk [] [])) ⟨[]⟩ 1 = [] := by
  rfl

/-- C2 amended: for a for-statement with an iteration expression that is
not a range binary-operation, the generator emits an element-wise
iteration loop only when that expression is a variable reference (the
bound name defaulting to `it`); any other expression shape (array
literal, function call, etc.) emits no output at all. -/
theorem for_element_iteration_only_for_variable :
    (∀ (v : String) (blk : Block) (ctx : ParsedFile),
      translateForStatement (.mk none (some (.var v)) blk) ctx 1 =
        (("    for (const it of " ++ v ++ ") \x7b") :: translateBlock blk ctx 2) ++
          ["    \x7d"]) ∧
    (∀ (item : Option String) (e : Expression) (blk : Block) (ctx : ParsedFile)
      (il : Nat), isRangeOp e = false → isVariableExpr e = false →
      translateForStatement (.mk item (some e) blk) ctx il = []) := by
  constructor
  · intro v blk ctx
    rfl
  · intro item e blk ctx il h1 h2
    match e with
    | .functionCall n a => rfl
    | .str s => rfl
    | .i32 s => rfl
    | .bool s => rfl
    | .array t i => rfl
    | .var s => simp [isVariableExpr] at h2
    | .op o => rfl
    | .binaryOperation o l r =>
      match o with
      | .Add | .Subtract | .Multiply | .Divide | .Equal | .NotEqual | .LessThan
      | .LessThanOrEqual | .GreaterThan | .GreaterThanOrEqual | .And | .Or => rfl
      | .Range => simp [isRangeOp] at h1

/-- C2 witness: the amended theorem applied to a function-call iteration
expression emits nothing. -/
theorem for_element_iteration_only_for_variable_witness :
    translateForStatement
      (.mk (some "x") (some (.functionCall "f" [])) (.mk [] [])) ⟨[]⟩ 1 = [] :=
  for_element_iteration_only_for_variable.2 (some "x") (.functionCall "f" []) (.mk [] [])
    ⟨[]⟩ 1 rfl rfl

/-- C5: for source text containing a match statement, the lexer does not
tokenize the leading `match` keyword as a match token — its keyword table
has no entry for `match`, so it becomes a plain identifier — and the
parser's statement dispatch therefore produces an expression statement
(a variable reference named `match`), never a match-statement node, even
though the dispatch has a (dead) match case and the generator supports
match statements.  This contradicts the parser, which references the
nonexistent enum member `TokenType.Match`. -/
theorem match_keyword_lexes_as_identifier :
    (lex "match x \x7b \x7d").tokens =
      [⟨.Identifier, some "match"⟩, ⟨.Identifier, some "x"⟩, ⟨.LBrace, none⟩,
        ⟨.RBrace, none⟩, ⟨.EOF, none⟩] ∧
    parseStatement 50 (lex "match x \x7b \x7d") =
      .ok (.expression (.var "match"),
        ⟨[⟨.Identifier, some "match"⟩, ⟨.Identifier, some "x"⟩, ⟨.LBrace, none⟩,
          ⟨.RBrace, none⟩, ⟨.EOF, none⟩], 0⟩) := by
  exact ⟨rfl, rfl⟩

/-- C7: the generated loop for a range iteration expression is indeed
half-open — it starts at the translated left bound and continues with a
strict `<` comparison against the translated right bound, and the emitted
host-language loop form for bounds `0` and `10` visits exactly the ten
integers `0` through `9` in ascending order — but the surface syntax
`for i in 0..10 { }` of the claim never reaches the generator: the parser
pops only the bound identifier after its two-token lookahead sees `in`,
leaves the `in` token in the stream, and the following expression parse
rejects it. -/
theorem range_loop_half_open_but_for_in_unparsable :
    parseStatement 99 (lex "for i in 0..10 \x7b \x7d") =
      .error "Expected expression, got 'in'" ∧
    (∀ (blk : Block) (ctx : ParsedFile),
      translateForStatement
        (.mk (some "i") (some (.binaryOperation .Range (.i32 "0") (.i32 "10"))) blk) ctx 1 =
        ("    for (let i = 0; i < 10; i++) \x7b" :: translateBlock blk ctx 2) ++
          ["    \x7d"]) ∧
    jsCountedLoopVisits 20 0 10 = [0, 1, 2, 3, 4, 5, 6, 7, 8, 9] := by
  exact ⟨rfl, fun blk ctx => rfl, rfl⟩

/-- C3 counterexample: a stray token that can begin no top-level form (a
number literal at top level is a grammar mismatch) raises no error at
all: the top-level dispatch silently skips it and the parse succeeds with
an empty program. -/
theorem parse_skips_stray_top_level_token :
    parse 5 ⟨[⟨.Number, some "5"⟩, ⟨.EOF, none⟩], -1⟩ = .ok ⟨[]⟩ := rfl

/-- C3 amended: grammar mismatches at token-expectation points raise an
immediate error naming the expected versus actual token kind and abort
the parse with no tree returned; but the top-level dispatch silently
skips every token other than `func` (so some grammar mismatches produce
no error and no skipped-token report at all). -/
theorem parse_dispatch_skips_and_expectation_errors :
    (∀ (tt : TokenType) (v : Option String), tt ≠ .Func → tt ≠ .EOF →
      parse 5 ⟨[⟨tt, v⟩, ⟨.EOF, none⟩], -1⟩ = .ok ⟨[]⟩) ∧
    parseFunction 5 ⟨[⟨.Number, some "5"⟩], -1⟩ =
      .error "Expected function name, got 'number'" ∧
    parseBlock 5 ⟨[⟨.Number, some "5"⟩], -1⟩ =
      .error "Expected '\x7b', got 'number'" := by
  refine ⟨?_, rfl, rfl⟩
  intro tt v h1 h2
  cases tt <;> first | rfl | exact absurd rfl h1

/-- C3 witness: the amended theorem applied to a stray `=` token. -/
theorem parse_dispatch_skips_witness :
    parse 5 ⟨[⟨.Assign, none⟩, ⟨.EOF, none⟩], -1⟩ = .ok ⟨[]⟩ :=
  parse_dispatch_skips_and_expectation_errors.1 .Assign none (by decide) (by decide)

/-- C4 counterexample: a program whose only function named `main` takes a
parameter still gets the top-level `main();` invocation appended — the
generator checks only the name, never the parameter list. -/
theorem main_with_params_still_invoked :
    translate ⟨[⟨"main", [⟨"x", .I32⟩], .mk [] [], .Void⟩]⟩ =
      "function main(x) \x7b\n\x7d\n\nmain();" := rfl

/-- The last line of the function-definition section is the empty line
pushed after each function (or there are no lines at all). -/
theorem translateFunctionsAll_getLast (fs : List Func) (ctx : ParsedFile) :
    fs = [] ∨ (translateFunctionsAll fs ctx).getLast? = some "" := by
  induction fs with
  | nil => exact Or.inl rfl
  | cons f rest ih =>
    refine Or.inr ?_
    rw [translateFunctionsAll, List.getLast?_append]
    rcases ih with h | h
    · subst h
      rw [show translateFunctionsAll [] ctx = [] from rfl]
      simp [List.getLast?_concat]
    · rw [h]
      rfl

/-- C4 amended: the generator appends the top-level invocation `main();`
after all function definitions if and only if some function in the
program is named `main` — with no requirement on its parameter list. -/
theorem main_invocation_iff_main_name_exists (pf : ParsedFile) :
    (translateLines pf).getLast? = some "main();" ↔ ∃ f ∈ pf.funcs, f.name = "main" := by
  simp only [translateLines]
  by_cases h : pf.funcs.any (fun func => func.name = "main") = true
  · rw [if_pos h, List.getLast?_concat]
    simp only [Option.some.injEq, eq_self_iff_true, true_iff]
    rw [List.any_eq_true] at h
    simpa using h
  · rw [if_neg h]
    constructor
    · intro hl
      rcases translateFunctionsAll_getLast pf.funcs pf with he | he
      · rw [he] at hl
        rw [show translateFunctionsAll [] pf = [] from rfl] at hl
        cases hl
      · rw [he] at hl
        exact absurd hl (by decide)
    · intro hex
      exact absurd (List.any_eq_true.mpr (by simpa using hex)) h

/-- The defer-closure names produced by the statement loop: one per
`defer` statement, numbered consecutively from the running count, in
declaration order. -/
theorem translateStatements_defers (stmts : List Statement) (ctx : ParsedFile)
    (il : Nat) : ∀ dc : Nat,
    (translateStatements stmts ctx il dc).2 =
      (List.range (countDefers stmts)).map (fun i => "defer_" ++ toString (dc + i)) := by
  induction stmts with
  | nil => intro dc; rfl
  | cons s rest ih =>
    intro dc
    cases s with
    | deferStmt e =>
      simp only [translateStatements, countDefers, ih (dc + 1), List.range_succ_eq_map,
        List.map_cons, List.map_map, Nat.add_zero]
      congr 1
      apply List.map_congr_left
      intro i _
      have h2 : dc + 1 + i = dc + (i + 1) := by omega
      simp [Function.comp, h2, Nat.succ_eq_add_one]
    | expression e => simpa only [translateStatements, countDefers] using ih dc
    | ret e => simpa only [translateStatements, countDefers] using ih dc
    | variableDecl d => simpa only [translateStatements, countDefers] using ih dc
    | ifStatement s => simpa only [translateStatements, countDefers] using ih dc
    | matchStatement s => simpa only [translateStatements, countDefers] using ih dc
    | forStatement s => simpa only [translateStatements, countDefers] using ih dc
    | breakStmt => simpa only [translateStatements, countDefers] using ih dc
    | skipStmt => simpa only [translateStatements, countDefers] using ih dc

/-- C6: for every block, the generated text is the statements' lines
followed by the invocations of the deferred closures — `defer_0();`,
`defer_1();`, … — one per `defer` statement, in declaration order, after
every other line of the block (including any `return`/`break` lines, so
an early exit in the emitted code never reaches them). -/
theorem defer_calls_after_statements_in_declaration_order (b : Block) (ctx : ParsedFile)
    (il : Nat) :
    translateBlock b ctx il =
      (translateStatements b.statements ctx il 0).1 ++
        (List.range (countDefers b.statements)).map
          (fun i => indentStr il ++ ("defer_" ++ toString i) ++ "();") := by
  obtain ⟨stmts, vs⟩ := b
  show (translateStatements stmts ctx il 0).1 ++
      (translateStatements stmts ctx il 0).2.map (fun d => indentStr il ++ d ++ "();") = _
  rw [translateStatements_defers stmts ctx il 0, List.map_map]
  congr 1
  apply List.map_congr_left
  intro i _
  simp [Function.comp]

set_option maxHeartbeats 0 in
/-- C8: the token stream `a + b * c` (a multiplicative operator to the
right of an additive one) parses to `Add(a, Multiply(b, c))` — the
multiplication binds tighter — and likewise `a - b / c` parses to
`Subtract(a, Divide(b, c))`; the precedence table orders the tiers
multiplicative > additive > range > relational/equality > logical. -/
theorem plus_times_precedence_parse :
    parseExpression 10
      ⟨[⟨.Identifier, some "a"⟩, ⟨.Plus, none⟩, ⟨.Identifier, some "b"⟩, ⟨.Asterisk, none⟩,
        ⟨.Identifier, some "c"⟩, ⟨.EOF, none⟩], -1⟩ =
      .ok (.binaryOperation .Add (.var "a")
          (.binaryOperation .Multiply (.var "b") (.var "c")),
        ⟨[⟨.Identifier, some "a"⟩, ⟨.Plus, none⟩, ⟨.Identifier, some "b"⟩, ⟨.Asterisk, none⟩,
          ⟨.Identifier, some "c"⟩, ⟨.EOF, none⟩], 4⟩) ∧
    parseExpression 10
      ⟨[⟨.Identifier, some "a"⟩, ⟨.Minus, none⟩, ⟨.Identifier, some "b"⟩,
        ⟨.ForwardSlash, none⟩, ⟨.Identifier, some "c"⟩, ⟨.EOF, none⟩], -1⟩ =
      .ok (.binaryOperation .Subtract (.var "a")
          (.binaryOperation .Divide (.var "b") (.var "c")),
        ⟨[⟨.Identifier, some "a"⟩, ⟨.Minus, none⟩, ⟨.Identifier, some "b"⟩,
          ⟨.ForwardSlash, none⟩, ⟨.Identifier, some "c"⟩, ⟨.EOF, none⟩], 4⟩) ∧
    (OPERATOR_PRECEDENCE .Add < OPERATOR_PRECEDENCE .Multiply ∧
      OPERATOR_PRECEDENCE .Add < OPERATOR_PRECEDENCE .Divide ∧
      OPERATOR_PRECEDENCE .Subtract < OPERATOR_PRECEDENCE .Multiply ∧
      OPERATOR_PRECEDENCE .Subtract < OPERATOR_PRECEDENCE .Divide) ∧
    (OPERATOR_PRECEDENCE .Range < OPERATOR_PRECEDENCE .Add ∧
      OPERATOR_PRECEDENCE .Range < OPERATOR_PRECEDENCE .Subtract) ∧
    (OPERATOR_PRECEDENCE .LessThan < OPERATOR_PRECEDENCE .Range ∧
      OPERATOR_PRECEDENCE .LessThanOrEqual < OPERATOR_PRECEDENCE .Range ∧
      OPERATOR_PRECEDENCE .GreaterThan < OPERATOR_PRECEDENCE .Range ∧
      OPERATOR_PRECEDENCE .GreaterThanOrEqual < OPERATOR_PRECEDENCE .Range ∧
      OPERATOR_PRECEDENCE .Equal < OPERATOR_PRECEDENCE .Range ∧
      OPERATOR_PRECEDENCE .NotEqual < OPERATOR_PRECEDENCE .Range) ∧
    (OPERATOR_PRECEDENCE .And < OPERATOR_PRECEDENCE .LessThan ∧
      OPERATOR_PRECEDENCE .And < OPERATOR_PRECEDENCE .LessThanOrEqual ∧
      OPERATOR_PRECEDENCE .And < OPERATOR_PRECEDENCE .GreaterThan ∧
      OPERATOR_PRECEDENCE .And < OPERATOR_PRECEDENCE .GreaterThanOrEqual ∧
      OPERATOR_PRECEDENCE .And < OPERATOR_PRECEDENCE .Equal ∧
      OPERATOR_PRECEDENCE .And < OPERATOR_PRECEDENCE .NotEqual ∧
      OPERATOR_PRECEDENCE .Or < OPERATOR_PRECEDENCE .LessThan ∧
      OPERATOR_PRECEDENCE .Or < OPERATOR_PRECEDENCE .LessThanOrEqual ∧
      OPERATOR_PRECEDENCE .Or < OPERATOR_PRECEDENCE .GreaterThan ∧
      OPERATOR_PRECEDENCE .Or < OPERATOR_PRECEDENCE .GreaterThanOrEqual ∧
      OPERATOR_PRECEDENCE .Or < OPERATOR_PRECEDENCE .Equal ∧
      OPERATOR_PRECEDENCE .Or < OPERATOR_PRECEDENCE .NotEqual) := by
  exact ⟨rfl, rfl, by decide, by decide, by decide, by decide⟩

/-- C9: a call named `print` lowers to the host console-output primitive;
a call whose name is not `print` but is the name of a declared function
lowers to a normal call; a call whose name is neither lowers to empty
text — and all three produce a value, never an error. -/
theorem function_call_lowering (name : String) (args : List Expression) (ctx : ParsedFile) :
    (name = "print" →
      translateFunctionCall name args ctx =
        "console.log(" ++ String.intercalate ", " (translateExpressionList args ctx) ++ ");") ∧
    (name ≠ "print" → (∃ f ∈ ctx.funcs, f.name = name) →
      translateFunctionCall name args ctx =
        name ++ "(" ++ String.intercalate ", " (translateExpressionList args ctx) ++ ")") ∧
    (name ≠ "print" → (∀ f ∈ ctx.funcs, f.name ≠ name) →
      translateFunctionCall name args ctx = "") := by
  refine ⟨?_, ?_, ?_⟩
  · intro h
    subst h
    rfl
  · intro h1 h2
    rw [translateFunctionCall, if_neg h1, if_pos (List.any_eq_true.mpr (by simpa using h2))]
  · intro h1 h2
    rw [translateFunctionCall, if_neg h1, if_neg ?hn]
    case hn =>
      rw [List.any_eq_true]
      push_neg
      intro f hf
      simpa using h2 f hf

/-- C9 witness: the three lowering cases at concrete calls — the `print`
intrinsic, a declared function `f`, and an undeclared name `g`. -/
theorem function_call_lowering_witness :
    translateFunctionCall "print" [.str "hi"] ⟨[]⟩ = "console.log('hi');" ∧
    translateFunctionCall "f" [] ⟨[⟨"f", [], .mk [] [], .Void⟩]⟩ = "f()" ∧
    translateFunctionCall "g" [] ⟨[⟨"f", [], .mk [] [], .Void⟩]⟩ = "" :=
  ⟨(function_call_lowering "print" [.str "hi"] ⟨[]⟩).1 rfl,
    (function_call_lowering "f" [] ⟨[⟨"f", [], .mk [] [], .Void⟩]⟩).2.1 (by decide)
      ⟨⟨"f", [], .mk [] [], .Void⟩, by simp, rfl⟩,
    (function_call_lowering "g" [] ⟨[⟨"f", [], .mk [] [], .Void⟩]⟩).2.2 (by decide)
      (by intro f hf; simp at hf; rw [hf]; decide)⟩

/-- A successful `pop` leaves the cursor on the index of the returned
token, with the token sequence unchanged. -/
theorem popT_sound {tl tl2 : TokenList} {t : Token} (h : popT tl = .ok (t, tl2)) :
    tl2.tokens[tl2.cursor.toNat]? = some t ∧ tl2.tokens = tl.tokens := by
  rcases tl with ⟨toks, cur⟩
  unfold popT TokenList.pop at h
  simp only at h
  rcases hx : toks[((if cur ≥ (toks.length : Int) then (toks.length : Int) - 1 else cur) + 1).toNat]?
    with _ | tok
  · rw [hx] at h
    cases h
  · rw [hx] at h
    cases h
    exact ⟨hx, rfl⟩

/-- A `pop` immediately after a successful one-token `peek` returns the
very token the `peek` saw. -/
theorem pop_after_peek {tl tl1 : TokenList} {t : Token} (h : peekT tl 1 = .ok (t, tl1)) :
    popT tl1 = .ok (t, ⟨tl1.tokens, tl1.cursor + 1⟩) := by
  rcases tl with ⟨toks, cur⟩
  unfold peekT TokenList.peek at h
  simp only at h
  rcases hx : toks[((if cur ≥ (toks.length : Int) then (toks.length : Int) - 2 else cur) + 1).toNat]?
    with _ | tok
  · rw [hx] at h
    cases h
  · rw [hx] at h
    cases h
    unfold popT TokenList.pop
    have hc : ¬ ((if cur ≥ (toks.length : Int) then (toks.length : Int) - 2 else cur) ≥
        (toks.length : Int)) := by
      by_cases hcond : cur ≥ (toks.length : Int)
      · rw [if_pos hcond]
        omega
      · rw [if_neg hcond]
        exact hcond
    simp only [hc, if_false, if_neg hc]
    rw [hx]

/-- The item loop of `parseArray` either performs no iteration (leaving
the state untouched, which happens exactly when its entry token already
ends the loop) or ends having just consumed a `]`: the loop's final `pop`
is checked to be `,` or `]` beforehand, and only `]` exits the loop. -/
theorem parseArrayLoop_rbracket (fuel : Nat) :
    ∀ (items : List Expression) (t : Token) (tl : TokenList)
      (out : List Expression × TokenList),
      parseArrayLoop fuel items t tl = .ok out →
      ((t.type = .EOF ∨ t.type = .RBracket) ∧ out = (items, tl)) ∨
      (∃ tk, out.2.tokens[out.2.cursor.toNat]? = some tk ∧ tk.type = .RBracket) := by
  induction fuel with
  | zero =>
    intro items t tl out h
    exact absurd h (by simp [parseArrayLoop])
  | succ fuel ih =>
    intro items t tl out h
    rw [parseArrayLoop] at h
    by_cases hexit : t.type = .EOF ∨ t.type = .RBracket
    · rw [if_pos hexit] at h
      cases h
      exact Or.inl ⟨hexit, rfl⟩
    · rw [if_neg hexit] at h
      cases hpe : parseExpression fuel tl with
      | error e =>
        rw [hpe] at h
        exact absurd h (by simp [Bind.bind, Except.bind])
      | ok pe =>
        obtain ⟨e, tl1⟩ := pe
        rw [hpe] at h
        simp only [Bind.bind, Except.bind] at h
        cases hpk : peekT tl1 1 with
        | error e2 =>
          rw [hpk] at h
          exact absurd h (by simp)
        | ok pk =>
          obtain ⟨t2, tl2⟩ := pk
          rw [hpk] at h
          simp only at h
          by_cases ht2 : t2.type = .Comma ∨ t2.type = .RBracket
          · rw [if_pos ht2] at h
            cases hpop : popT tl2 with
            | error e3 =>
              rw [hpop] at h
              exact absurd h (by simp [Bind.bind, Except.bind])
            | ok pp =>
              obtain ⟨t3, tl3⟩ := pp
              rw [hpop] at h
              simp only [Bind.bind, Except.bind] at h
              rcases ih _ _ _ _ h with ⟨hex3, hout⟩ | hr
              · have heq := pop_after_peek hpk
                rw [hpop] at heq
                obtain ⟨h31, h32⟩ : t3 = t2 ∧ tl3 = ⟨tl2.tokens, tl2.cursor + 1⟩ := by
                  simpa using heq
                have ht3rb : t3.type = .RBracket := by
                  rcases hex3 with h1 | h1
                  · rw [h31] at h1
                    rcases ht2 with h2 | h2
                    · rw [h1] at h2
                      cases h2
                    · rw [h31]
                      exact h2
                  · exact h1
                have hsound := (popT_sound hpop).1
                refine Or.inr ⟨t3, ?_, ht3rb⟩
                rw [hout]
                exact hsound
              · exact Or.inr hr
          · rw [if_neg ht2] at h
            exact absurd h (by simp)

/-- C10: parsing the empty array literal `[]` consumes only the opening
bracket — the returned item list is empty and the very next token the
cursor yields is still the closing `]` — whereas every successful
`parseArray` run that returns at least one item ends with the closing `]`
as the last consumed token (the cursor rests on a `]`). -/
theorem parseArray_bracket_consumption :
    (parseArray 5 ⟨[⟨.LBracket, none⟩, ⟨.RBracket, none⟩, ⟨.EOF, none⟩], -1⟩ =
        .ok (⟨.I32, []⟩, ⟨[⟨.LBracket, none⟩, ⟨.RBracket, none⟩, ⟨.EOF, none⟩], 0⟩) ∧
      ((TokenList.mk [⟨.LBracket, none⟩, ⟨.RBracket, none⟩, ⟨.EOF, none⟩] 0).pop).1 =
        some ⟨.RBracket, none⟩) ∧
    (∀ (fuel : Nat) (tl tl2 : TokenList) (arr : Arr),
      parseArray fuel tl = .ok (arr, tl2) → arr.items ≠ [] →
      ∃ tk, tl2.tokens[tl2.cursor.toNat]? = some tk ∧ tk.type = .RBracket) := by
  refine ⟨⟨rfl, rfl⟩, ?_⟩
  intro fuel tl tl2 arr h hne
  match fuel with
  | 0 => exact absurd h (by simp [parseArray])
  | fuel + 1 =>
    rw [parseArray] at h
    cases hpop : popT tl with
    | error e =>
      rw [hpop] at h
      exact absurd h (by simp [Bind.bind, Except.bind])
    | ok pp =>
      obtain ⟨t, tl1⟩ := pp
      rw [hpop] at h
      simp only [Bind.bind, Except.bind] at h
      by_cases ht : t.type = .LBracket
      · rw [if_pos ht] at h
        cases hpk : peekT tl1 1 with
        | error e2 =>
          rw [hpk] at h
          exact absurd h (by simp)
        | ok pk =>
          obtain ⟨t1, tl1b⟩ := pk
          rw [hpk] at h
          simp only at h
          cases hloop : parseArrayLoop fuel [] t1 tl1b with
          | error e3 =>
            rw [hloop] at h
            exact absurd h (by simp)
          | ok lo =>
            obtain ⟨items, tlf⟩ := lo
            rw [hloop] at h
            simp only at h
            obtain ⟨harr, htl⟩ : (⟨DataType.I32, items⟩ : Arr) = arr ∧ tlf = tl2 := by
              simpa [pure, Except.pure] using h
            rcases parseArrayLoop_rbracket fuel [] t1 tl1b (items, tlf) hloop with
              ⟨_, hout⟩ | hr
            · obtain ⟨hi, _⟩ : items = [] ∧ tlf = tl1b := by simpa using hout
              rw [← harr] at hne
              rw [hi] at hne
              exact absurd rfl hne
            · rw [← htl]
              exact hr
      · rw [if_neg ht] at h
        exact absurd h (by simp)

/-- C10 witness: parsing the one-element array literal `[1]` succeeds
with one item and the cursor resting on the consumed closing `]`. -/
theorem parseArray_bracket_consumption_witness :
    ∃ tk, (TokenList.mk [⟨.LBracket, none⟩, ⟨.Number, some "1"⟩, ⟨.RBracket, none⟩,
        ⟨.EOF, none⟩] 2).tokens[((2 : Int)).toNat]? = some tk ∧ tk.type = .RBracket :=
  parseArray_bracket_consumption.2 20
    ⟨[⟨.LBracket, none⟩, ⟨.Number, some "1"⟩, ⟨.RBracket, none⟩, ⟨.EOF, none⟩], -1⟩
    ⟨[⟨.LBracket, none⟩, ⟨.Number, some "1"⟩, ⟨.RBracket, none⟩, ⟨.EOF, none⟩], 2⟩
    ⟨.I32, [.i32 "1"]⟩ (by rfl) (by exact fun hx => List.cons_ne_nil _ _ hx)

end Cog
